import Mathlib

/-!
Verification of the jpinfectpy / jp_idwr_db parsing and merge pipeline.

This file gives a shallow embedding of the data-cleaning, parsing, merging and
validation core of the repository (polars dataframes are modelled as lists of
rows; string cells as `Option String`; dates as Rata Die day numbers, `Int`),
and proves or refutes the frozen specification claims about it.

Modelling conventions, used throughout:
* A nullable polars string column cell is `Option String`; polars `cast` with
  `strict=False` maps an unparseable cell to `none`.
* The numeric grammar accepted by the embedded parsers is the decimal fragment
  `[+-]? digits [. digits]` (with at least one digit), which is the common
  fragment of Rust's `f64::from_str` (used by polars `cast`) and Python's
  `float` that the surveillance CSV count cells exercise; specials such as
  `nan`/`inf`/exponents are outside the model.  On this fragment float64
  values are modelled exactly by `DecVal`, a signed decimal
  numerator/power-of-ten pair, with `DecVal.toRat` giving its rational value.
* Casting a float column to Int64 truncates toward zero, as in polars/Rust.
-/

namespace JpInfect

/-- Exact model of a float64 value arising from parsing a decimal numeral:
the value is `num / 10 ^ shift`. -/
structure DecVal where
  num : Int
  shift : Nat
deriving DecidableEq, Repr

/-- Rational value of a `DecVal`. -/
def DecVal.toRat (d : DecVal) : ℚ := (d.num : ℚ) / (10 : ℚ) ^ d.shift

/-- Decimal digit test for the numeric grammar. -/
def isDigitCh (c : Char) : Bool := '0' ≤ c && c ≤ '9'

/-- Value of one decimal digit character. -/
def digitVal (c : Char) : Nat := c.toNat - '0'.toNat

/-- Value of a digit string, most significant first. -/
def digitsVal (ds : List Char) : Nat := ds.foldl (fun a c => 10 * a + digitVal c) 0

/-- Parse the sign prefix of a numeral: returns the sign and the remaining
characters. Both Rust's and Python's float parsers accept one optional leading
`+` or `-`. -/
def parseSign : List Char → Int × List Char
  | '-' :: t => (-1, t)
  | '+' :: t => (1, t)
  | cs => (1, cs)

/-- Parse a decimal numeral (the shared fragment of Rust `f64::from_str`, used
by polars string→Float64 casts, and Python `float`): optional sign, then
digits with an optional fractional part, at least one digit overall, nothing
else.  Returns the exact value, or `none` when the text is not a numeral of
this form. -/
def parseDec (cs : List Char) : Option DecVal :=
  let sp := parseSign cs
  let ip := sp.2.takeWhile isDigitCh
  let rest := sp.2.drop ip.length
  match rest with
  | [] =>
    if ip.isEmpty then none
    else some ⟨sp.1 * (digitsVal ip : Int), 0⟩
  | '.' :: t =>
    let fp := t.takeWhile isDigitCh
    let rest2 := t.drop fp.length
    if rest2.isEmpty then
      if ip.isEmpty && fp.isEmpty then none
      else some ⟨sp.1 * ((digitsVal ip : Int) * (10 : Int) ^ fp.length + (digitsVal fp : Int)),
                 fp.length⟩
    else none
  | _ => none

/-- Truncation toward zero of a decimal value, the semantics of a float→Int64
cast in polars (Rust `as`). -/
def decTruncToInt (d : DecVal) : Int := d.num.tdiv ((10 : Int) ^ d.shift)

/-- Model of a polars `cast(pl.Float64, strict=False)` on a nullable string
cell: nulls stay null, unparseable text becomes null. -/
def plCastFloat (cell : Option String) : Option DecVal := cell.bind fun s => parseDec s.data

/-- Model of polars `fill_null(0)` on a nullable float cell. -/
def plFillNullZero (x : Option DecVal) : Option DecVal := some (x.getD ⟨0, 0⟩)

/-- Model of a polars `cast(pl.Int64)` on a float cell (truncation toward
zero; nulls propagate). -/
def plCastInt (x : Option DecVal) : Option Int := x.map decTruncToInt

/-- Count coercion of `_read_confirmed_pl` (io.py lines 519-522) and
`_read_bullet_pl` (io.py lines 616-619):
`pl.col("count").cast(pl.Float64, strict=False).fill_null(0).cast(pl.Int64)`. -/
def confirmedCountCoerce (cell : Option String) : Option Int :=
  plCastInt (plFillNullZero (plCastFloat cell))

/-- Polars `str.replace("-", "")`: removes the first occurrence of `-`
(`str.replace` replaces only the first regex match; the pattern `-` matches a
literal dash). Nulls propagate (handled by the callers via `Option.map`). -/
def replaceFirstDash : List Char → List Char
  | [] => []
  | c :: t => if c = '-' then t else c :: replaceFirstDash t

/-- The `count` pipeline of the legacy Japanese sentinel parser
`_read_sentinel_pl` (io.py lines 764-771):
`pl.col("count_raw").str.replace("-", "").cast(pl.Float64, strict=False).fill_null(0).cast(pl.Int64)`. -/
def legacySentinelCount (cell : Option String) : Option Int :=
  plCastInt (plFillNullZero (plCastFloat (cell.map fun s => String.mk (replaceFirstDash s.data))))

/-- The `per_sentinel` pipeline of `_read_sentinel_pl` (io.py lines 772-775):
`pl.col("per_sentinel_raw").str.replace("-", "").cast(pl.Float64, strict=False)`
— note: no `fill_null`, so nulls are preserved. -/
def legacySentinelPer (cell : Option String) : Option DecVal :=
  plCastFloat (cell.map fun s => String.mk (replaceFirstDash s.data))

/-- Characters stripped by Python's default `str.strip()` and matched by the
regex class `\s` (Python's `str.isspace()` characters). -/
def isPySpace (c : Char) : Bool :=
  c = ' ' || c = '\t' || c = '\n' || c = '\r' ||
  c = '\x0b' || c = '\x0c' ||
  (c.toNat ≥ 0x1c && c.toNat ≤ 0x1f) ||
  c.toNat = 0x85 || c.toNat = 0xa0 || c.toNat = 0x1680 ||
  (c.toNat ≥ 0x2000 && c.toNat ≤ 0x200a) ||
  c.toNat = 0x2028 || c.toNat = 0x2029 || c.toNat = 0x202f ||
  c.toNat = 0x205f || c.toNat = 0x3000

/-- Python `str.strip()` on a character list. -/
def pyStrip (cs : List Char) : List Char :=
  ((cs.dropWhile isPySpace).reverse.dropWhile isPySpace).reverse

/-- The `_to_float` helper of the English sentinel parser
(sentinel_en_parser.py lines 54-64): `None` stays `None`; the value is
stripped and its commas removed; `""` and `"-"` become `None`; otherwise it is
parsed as a float, with a parse failure also giving `None`. -/
def sentinelEnToFloat (value : Option String) : Option DecVal :=
  value.bind fun s =>
    let t := (pyStrip s.data).filter (fun c => c != ',')
    if t = [] ∨ t = ['-'] then none
    else parseDec t

/-! Smart merge (jp_idwr_db/_internal/validation.py lines 99-133).

A dataframe is modelled as a list of rows.  A `MergeRow` carries the nullable
`disease` column the merge logic inspects, plus a `tag` standing for the
remaining columns of the row (enough to tell rows apart).  `pl.concat` with
`how="diagonal_relaxed"` appends the row lists (the frames are modelled with a
shared schema). -/

/-- Row of a frame entering `smart_merge`. -/
structure MergeRow where
  disease : Option String
  tag : Nat
deriving DecidableEq, Repr

/-- The distinct non-null diseases of the zensu frame:
`zensu_df.select("disease").drop_nulls().unique().get_column("disease").to_list()`. -/
def confirmedDiseases (zensu : List MergeRow) : List String :=
  (zensu.filterMap (fun r => r.disease)).dedup

/-- Polars `is_in` on a nullable string column: a null input propagates to a
null mask entry (polars 1.x default). -/
def isInMask (d : Option String) (xs : List String) : Option Bool :=
  d.map (fun s => decide (s ∈ xs))

/-- Polars `~` on a nullable boolean mask: nulls propagate. -/
def notMask (m : Option Bool) : Option Bool := m.map (fun b => !b)

/-- `smart_merge` (validation.py lines 99-133): keep all zensu rows; from
teiten keep the rows passing the mask
`~pl.col("disease").is_in(confirmed_diseases)` — a polars `filter` keeps a row
only when its mask entry is `true`, so a null mask entry (null disease) drops
the row. -/
def smart_merge (zensu teiten : List MergeRow) : List MergeRow :=
  let confirmed := confirmedDiseases zensu
  zensu ++ teiten.filter (fun r => notMask (isInMask r.disease confirmed) == some true)

/-- The merge as the claim words it: the teiten rows kept are exactly those
whose disease value is not in the set of distinct non-null zensu diseases (so
a null disease, not being in that set, is kept). -/
def smart_merge_claim (zensu teiten : List MergeRow) : List MergeRow :=
  zensu ++ teiten.filter (fun r => match r.disease with
    | none => true
    | some d => decide (d ∉ confirmedDiseases zensu))

/-! Deduplication (scripts/build_datasets.py lines 441-448):
`unified_df.unique(subset=["prefecture", "year", "week", "disease", "category"], keep="first")`.
Rows are modelled with the five (nullable) key columns plus a payload standing
for the rest; `keep="first"` keeps, within each key group, the first row in
frame order. -/

/-- Row of the unified table, as seen by the dedup/validation steps. -/
structure UnifiedRow where
  prefecture : Option String
  year : Option Int
  week : Option Int
  disease : Option String
  category : Option String
  payload : Nat
deriving DecidableEq, Repr

/-- The dedup key (polars groups null keys together, as does tuple equality
here). -/
def ukey (r : UnifiedRow) : Option String × Option Int × Option Int × Option String × Option String :=
  (r.prefecture, r.year, r.week, r.disease, r.category)

/-- Keep-first deduplication: a row survives when its key has not been seen
earlier in the list. -/
def uniqueKeepFirstAux
    (seen : List (Option String × Option Int × Option Int × Option String × Option String)) :
    List UnifiedRow → List UnifiedRow
  | [] => []
  | r :: rs =>
    if ukey r ∈ seen then uniqueKeepFirstAux seen rs
    else r :: uniqueKeepFirstAux (ukey r :: seen) rs

/-- `unique(subset=dedup_keys, keep="first")` on the unified table. -/
def unique_keep_first (rows : List UnifiedRow) : List UnifiedRow := uniqueKeepFirstAux [] rows

/-! Range validation (jp_idwr_db/_internal/validation.py lines 73-96).

A table is modelled by its optional `year` and `week` columns (absent column =
`none`); a column is a list of nullable Int64 cells.  Polars `Series.min()` /
`Series.max()` skip nulls and return `None` on an empty or all-null column; the
subsequent Python comparison `None < 1999` then raises `TypeError`, modelled by
`RangeError.typeError`. -/

/-- Polars `Series.min()`: minimum of the non-null cells, `none` when there
are none. -/
def seriesMin (col : List (Option Int)) : Option Int :=
  match col.filterMap id with
  | [] => none
  | x :: xs => some (xs.foldl min x)

/-- Polars `Series.max()`: maximum of the non-null cells, `none` when there
are none. -/
def seriesMax (col : List (Option Int)) : Option Int :=
  match col.filterMap id with
  | [] => none
  | x :: xs => some (xs.foldl max x)

/-- Errors of `validate_date_ranges`: the `ValueError`s carrying the
offending min and max, and the `TypeError` from comparing `None`. -/
inductive RangeError where
  | typeError : RangeError
  | yearOut : Int → Int → RangeError
  | weekOut : Int → Int → RangeError
deriving DecidableEq, Repr

/-- The table as seen by `validate_date_ranges`. -/
structure ValTable where
  year : Option (List (Option Int))
  week : Option (List (Option Int))

/-- The week half of `validate_date_ranges` (validation.py lines 90-96). -/
def validateWeekRange (t : ValTable) : Except RangeError Unit :=
  match t.week with
  | none => .ok ()
  | some col =>
    match seriesMin col, seriesMax col with
    | some mn, some mx => if mn < 1 ∨ 53 < mx then .error (.weekOut mn mx) else .ok ()
    | _, _ => .error .typeError

/-- `validate_date_ranges` (validation.py lines 73-96): check the year column
(range [1999, 2030]) and then the week column (range [1, 53]); raise a
`ValueError` naming the offending min and max, or a `TypeError` when a
present column has no non-null value. -/
def validate_date_ranges (t : ValTable) : Except RangeError Unit :=
  match t.year with
  | none => validateWeekRange t
  | some col =>
    match seriesMin col, seriesMax col with
    | some mn, some mx =>
      if mn < 1999 ∨ 2030 < mx then .error (.yearOut mn mx) else validateWeekRange t
    | _, _ => .error .typeError

/-! API boundary check of `get_confirmed` (jpinfectpy/io_confirmed.py lines
211-235).  The function is modelled as a trace of filesystem/network effects
paired with its outcome; the year bounds are checked before any effect, so an
out-of-range year yields a `ValueError` with an empty effect trace. -/

/-- Dataset kind accepted by `get_confirmed`. -/
inductive ConfirmedKind where
  | sex : ConfirmedKind
  | place : ConfirmedKind
deriving DecidableEq, Repr

/-- Side effects of `get_confirmed`, in order. -/
inductive FsEffect where
  | mkdirOutDir : FsEffect
  | returnExisting : FsEffect
  | downloadFile : FsEffect
deriving DecidableEq, Repr

/-- Errors raised by `get_confirmed`. -/
inductive ApiError where
  | valueError : String → ApiError
  | runtimeError : String → ApiError
deriving DecidableEq, Repr

/-- `get_confirmed(year, type, out_dir, overwrite)` (io_confirmed.py lines
211-235), abstracted over the filesystem (`destExists`) and the network
(`downloadOk`): the year bounds are checked first; then the output directory
is created; then either the existing file is returned (when it exists and
`overwrite` is false) or a download is attempted. -/
def get_confirmed (year : Int) (kind : ConfirmedKind) (destExists overwrite downloadOk : Bool) :
    List FsEffect × Except ApiError Unit :=
  if kind = .sex ∧ ¬(1999 ≤ year ∧ year ≤ 2023) then
    ([], .error (.valueError "year must be between 1999 and 2023 for sex data"))
  else if kind = .place ∧ ¬(2001 ≤ year ∧ year ≤ 2023) then
    ([], .error (.valueError "year must be between 2001 and 2023 for place data"))
  else if destExists ∧ ¬(overwrite = true) then
    ([.mkdirOutDir, .returnExisting], .ok ())
  else if downloadOk then ([.mkdirOutDir, .downloadFile], .ok ())
  else ([.mkdirOutDir, .downloadFile], .error (.runtimeError "Failed to download confirmed data"))

/-! Disease-name normalization (`_normalize_disease_name`, io.py lines
157-179, and `_DISEASE_NAME_MAPPINGS`, io.py lines 35-59).

The malformed-parenthetical rewrite is Python
`re.match(r"^[^\(]*\)\s*\((.+)$", name)`, whose semantics are embedded
exactly: the engine takes the longest `(`-free prefix followed by `)` that
lets the rest of the pattern match; between `)` and `(` only whitespace may
occur (and since `(` is not whitespace, the `\s*` position is forced to the
end of the whitespace run); `.+$` captures a non-empty remainder that
contains no newline, or the remainder minus a single trailing newline. -/

/-- The `(.+)$` tail of the malformed-parenthetical pattern (no DOTALL, no
MULTILINE): the captured group is the whole remainder when it is non-empty
and newline-free, or the remainder minus one trailing newline. -/
def dotPlusDollar (r : List Char) : Option (List Char) :=
  if r ≠ [] ∧ '\n' ∉ r then some r
  else
    match r.getLast? with
    | some '\n' =>
      let r' := r.dropLast
      if r' ≠ [] ∧ '\n' ∉ r' then some r' else none
    | _ => none

/-- Attempt the malformed-parenthetical match with `[^(]*` of length `i`. -/
def malformedMatchAt (cs : List Char) (i : Nat) : Option (List Char) :=
  if (cs.take i).all (fun c => c != '(') ∧ cs[i]? = some ')' then
    let after := cs.drop (i + 1)
    let ws := after.takeWhile isPySpace
    match after.drop ws.length with
    | '(' :: r => dotPlusDollar r
    | _ => none
  else none

/-- Backtracking over the greedy `[^(]*`: the longest prefix length wins. -/
def malformedSearch (cs : List Char) : Nat → Option (List Char)
  | 0 => malformedMatchAt cs 0
  | i + 1 =>
    match malformedMatchAt cs (i + 1) with
    | some g => some g
    | none => malformedSearch cs i

/-- `group(1)` of `re.match(r"^[^\(]*\)\s*\((.+)$", name)`, or `none` when the
pattern does not match. -/
def malformedGroup (cs : List Char) : Option (List Char) := malformedSearch cs cs.length

/-- `_DISEASE_NAME_MAPPINGS` (io.py lines 35-59). -/
def diseaseNameMappings : List (String × String) :=
  [("Acquired immunodeficiency syndrome (AIDS)", "AIDS"),
   ("HIV/AIDS", "AIDS"),
   ("Carbapenem-resistant enterobacteriaceae infection",
    "Carbapenem-resistant Enterobacterales infection"),
   ("Enterohemorrhagic E. coli infection", "Enterohemorrhagic Escherichia coli infection"),
   ("Epidemic louse-borne typhus", "Epidemic typhus"),
   ("Herpes B virus infection", "B virus disease"),
   ("Scrub typhus (Tsutsugamushi disease)", "Scrub typhus"),
   ("Tsutsugamushi disease", "Scrub typhus"),
   ("Severe invasive streptococcal infections (TSLS)",
    "Severe invasive streptococcal infections"),
   ("VRE infection", "Vancomycin-resistant Enterococcus infection"),
   ("West Nile fever (including West Nile encephalitis)", "West Nile fever"),
   ("Avian influenza H5N1", "Avian influenza H5N1"),
   ("Avian influenza H7N9", "Avian influenza H7N9")]

/-- `_DISEASE_NAME_MAPPINGS.get(name, name)`. -/
def applyDiseaseMapping (s : String) : String :=
  match diseaseNameMappings.find? (fun p => p.1 == s) with
  | some p => p.2
  | none => s

/-- `_normalize_disease_name` (io.py lines 157-179): rewrite the malformed
split parenthetical to its stripped remainder, then apply the synonym
table. -/
def normalize_disease_name (s : String) : String :=
  applyDiseaseMapping
    (match malformedGroup s.data with
     | some g => String.mk (pyStrip g)
     | none => s)

/-! ISO week dates (io.py `_iso_week_date`, lines 409-422, used by the
confirmed, bullet and legacy sentinel parsers; sentinel_en_parser.py
`_iso_week_date`, lines 67-72).  Dates are Rata Die day numbers
(0001-01-01 = day 1, a Monday). -/

/-- Rata Die day number of a proleptic-Gregorian date (valid for year ≥ 1;
the standard days-from-civil computation). -/
def rataDie (y m d : Int) : Int :=
  let yy := if m ≤ 2 then y - 1 else y
  let era := yy.tdiv 400
  let yoe := yy - era * 400
  let mp := if 2 < m then m - 3 else m + 9
  let doy := (153 * mp + 2).tdiv 5 + d - 1
  let doe := yoe * 365 + yoe.tdiv 4 - yoe.tdiv 100 + doy
  era * 146097 + doe - 305

/-- ISO weekday (Monday = 1 … Sunday = 7) of a Rata Die day number. -/
def isoWeekdayOf (rd : Int) : Int := (rd - 1) % 7 + 1

/-- Monday of ISO week 1 of year `y` (the Monday on or before January 4). -/
def isoWeek1Monday (y : Int) : Int :=
  rataDie y 1 4 - (isoWeekdayOf (rataDie y 1 4) - 1)

/-- The date with ISO calendar coordinates (year, week, weekday). -/
def fromISODate (y w d : Int) : Int := isoWeek1Monday y + 7 * (w - 1) + (d - 1)

/-- Number of ISO weeks (52 or 53) in ISO year `y`. -/
def isoWeeksInYear (y : Int) : Int := (isoWeek1Monday (y + 1) - isoWeek1Monday y).tdiv 7

/-- Python `datetime.date.fromisocalendar(y, w, d)`: validates the year, week
and weekday and the representable date range, raising otherwise. -/
def pyFromisocalendar (y w d : Int) : Option Int :=
  if 1 ≤ y ∧ y ≤ 9999 ∧ 1 ≤ w ∧ w ≤ isoWeeksInYear y ∧ 1 ≤ d ∧ d ≤ 7 ∧
     1 ≤ fromISODate y w d ∧ fromISODate y w d ≤ rataDie 9999 12 31 then
    some (fromISODate y w d)
  else none

/-- io.py `_iso_week_date` (lines 409-422), used by `_read_confirmed_pl`,
`_read_bullet_pl` and `_read_sentinel_pl`:
`dt.date.fromisocalendar(int(year), int(week), 7)` — weekday 7, the SUNDAY of
the ISO week — with any exception mapped to `None`. -/
def legacyIsoWeekDate (y w : Int) : Option Int := pyFromisocalendar y w 7

/-- sentinel_en_parser.py `_iso_week_date` (lines 67-72):
`jan4 - timedelta(days=jan4.weekday()) + timedelta(weeks=week-1)`; Python's
`weekday()` is Monday = 0, so this is the MONDAY of the ISO week. -/
def enIsoWeekDate (y w : Int) : Int :=
  let jan4 := rataDie y 1 4
  let week1monday := jan4 - (isoWeekdayOf jan4 - 1)
  week1monday + 7 * (w - 1)

/-- A long-format row of `_read_sentinel_pl` before the final column
pipelines (prefecture and disease already extracted; raw count and
per-sentinel cells). -/
structure LegacyLongRow where
  prefecture : String
  disease : String
  count_raw : Option String
  per_raw : Option String
deriving DecidableEq, Repr

/-- An output row of the sentinel parsers. -/
structure SentinelRow where
  prefecture : String
  disease : String
  year : Int
  week : Int
  date : Option Int
  count : Option Int
  per_sentinel : Option DecVal
  source : String
deriving DecidableEq, Repr

/-- Finalization of `_read_sentinel_pl` (io.py lines 742-791): the year and
week literals are broadcast to every row, the date is computed from
(year, week) by `_iso_week_date` for every row, count and per_sentinel go
through their pipelines, the source tag is attached, and disease names are
normalized. -/
def legacySentinelFinalize (rows : List LegacyLongRow) (y w : Int) : List SentinelRow :=
  rows.map fun r =>
    { prefecture := r.prefecture
      disease := normalize_disease_name r.disease
      year := y
      week := w
      date := legacyIsoWeekDate y w
      count := legacySentinelCount r.count_raw
      per_sentinel := legacySentinelPer r.per_raw
      source := "Sentinel surveillance" }

/-- An output record of `_read_sentinel_en_pl` (its `date` column is
non-nullable: the parser computes one `report_date` per file). -/
structure EnSentinelRow where
  prefecture : String
  disease : String
  year : Int
  week : Int
  date : Int
  count : Option DecVal
  per_sentinel : Option DecVal
  source : String
deriving DecidableEq, Repr

/-- ASCII lowering, the fragment of Python `str.lower()` the parser needs. -/
def pyLowerAscii (cs : List Char) : List Char := cs.map Char.toLower

/-- Python `str.startswith` on character lists (pattern first). -/
def listStartsWith : List Char → List Char → Bool
  | [], _ => true
  | _ :: _, [] => false
  | p :: ps, c :: cs => p == c && listStartsWith ps cs

/-- The record-emission loop of `_read_sentinel_en_pl` (sentinel_en_parser.py
lines 146-168): for each data row below the metric header, the stripped first
cell is the prefecture (skipped when empty or lowercasing to a "total" prefix)
and one record per disease column pair is emitted, each carrying the per-file
`report_date`.  `diseaseCols` is the (disease, count index, per-sentinel
index) list built at lines 134-140. -/
def enSentinelRecords (diseaseCols : List (String × Nat × Option Nat))
    (dataRows : List (List String)) (y w : Int) : List EnSentinelRow :=
  dataRows.foldr
    (fun row acc =>
      let pref := pyStrip ((row.headD "").data)
      if pref = [] ∨ listStartsWith "total".data (pyLowerAscii pref) then acc
      else
        (diseaseCols.map fun dc =>
          { prefecture := String.mk pref
            disease := dc.1
            year := y
            week := w
            date := enIsoWeekDate y w
            count := sentinelEnToFloat (row.get? dc.2.1)
            per_sentinel := sentinelEnToFloat
              (match dc.2.2 with
               | some j => row.get? j
               | none => none)
            source := "Sentinel surveillance" }) ++ acc)
    []

/-! Excel cell cleaning (`_clean_cell_text`, io.py lines 98-131,
`_normalize_fullwidth`, io.py lines 134-154) and header resolution
(`_resolve_headers`, io.py lines 182-245). -/

/-- `_normalize_fullwidth` (io.py lines 134-154): the six single-character
replacements, applied as one map (their sources are disjoint from their
targets, so sequential `str.replace` equals a per-character map). -/
def normalizeFullwidth (cs : List Char) : List Char :=
  cs.map fun c =>
    if c = 'Ｉ' then 'I'
    else if c = 'ｎ' then 'n'
    else if c = 'Ａ' then 'A'
    else if c = 'Ｅ' then 'E'
    else if c = 'Ｏ' then 'O'
    else if c = '　' then ' '
    else c

/-- Opening parenthesis class `[（(]` of the bilingual-cell regex. -/
def isOpenParen (c : Char) : Bool := c = '(' || c = '（'

/-- Closing parenthesis class `[)）]` of the bilingual-cell regex. -/
def isCloseParen (c : Char) : Bool := c = ')' || c = '）'

/-- The scan of `re.findall(r"[（(]([^\)）]+)[)）]", s)`: at an
opening parenthesis, the greedy `[^\)）]+` takes the maximal run of
non-closers; the match succeeds when the run is non-empty and a closer
follows, and scanning resumes after the closer (matches do not overlap);
otherwise the scan advances one character.  Fuel-driven so that the
definition is structural (the fuel is the input length). -/
def parenGroups : Nat → List Char → List (List Char)
  | 0, _ => []
  | _, [] => []
  | fuel + 1, c :: rest =>
    if isOpenParen c then
      let run := rest.takeWhile (fun x => !isCloseParen x)
      match rest.drop run.length with
      | d :: rest2 =>
        if run ≠ [] ∧ isCloseParen d then run :: parenGroups fuel rest2
        else parenGroups fuel rest
      | [] => parenGroups fuel rest
    else parenGroups fuel rest

/-- All captured groups of the bilingual-cell regex, left to right. -/
def pyFindallParen (cs : List Char) : List (List Char) := parenGroups cs.length cs

/-- `_clean_cell_text` (io.py lines 98-131): falsy input (None or "") gives
None; NUL bytes are removed; CR/LF/TAB become spaces; when parenthesized
segments exist the LAST one is stripped and fullwidth-normalized and
returned; otherwise the whole text is fullwidth-normalized and stripped. -/
def cleanCellText (text : Option String) : Option String :=
  match text with
  | none => none
  | some s =>
    if s = "" then none
    else
      let clean1 := s.data.filter (fun c => c != '\x00')
      let clean2 := clean1.map (fun c => if c = '\r' ∨ c = '\n' ∨ c = '\t' then ' ' else c)
      match (pyFindallParen clean2).getLast? with
      | some g => some (String.mk (normalizeFullwidth (pyStrip g)))
      | none => some (String.mk (pyStrip (normalizeFullwidth clean2)))

/-- Python truthiness of an optional string (`if r2:`): false for None and
for the empty string. -/
def truthy : Option String → Bool
  | none => false
  | some s => s != ""

/-- The Japanese-range test of io.py lines 214-217 (hiragana, katakana, CJK
unified ideographs). -/
def hasJapaneseChar (s : String) : Bool :=
  s.data.any fun c =>
    (0x3040 ≤ c.toNat && c.toNat ≤ 0x309f) ||
    (0x30a0 ≤ c.toNat && c.toNat ≤ 0x30ff) ||
    (0x4e00 ≤ c.toNat && c.toNat ≤ 0x9fff)

/-- Substring containment, Python's `in` on strings (pattern first). -/
def listContainsSub (pat : List Char) : List Char → Bool
  | [] => listStartsWith pat []
  | c :: rest => listStartsWith pat (c :: rest) || listContainsSub pat rest

/-- `pat in s` for strings. -/
def strContains (s pat : String) : Bool := listContainsSub pat.data s.data

/-- The category normalization of `_resolve_headers` (io.py lines 212-234),
applied to the cleaned category cell: a cell containing Japanese-range
characters is discarded (→ "total"), a falsy cell defaults to "total",
otherwise the lowercased text is searched for the keywords total, male,
female, japan, others, unknown in that order (substring containment), and a
cell matching no keyword is kept as is. -/
def categoryOf (r3 : Option String) : String :=
  match r3 with
  | none => "total"
  | some s =>
    if s = "" then "total"
    else if hasJapaneseChar s then "total"
    else
      let lower := String.mk (pyLowerAscii s.data)
      if strContains lower "total" then "total"
      else if strContains lower "male" then "male"
      else if strContains lower "female" then "female"
      else if strContains lower "japan" then "japan"
      else if strContains lower "others" then "others"
      else if strContains lower "unknown" then "unknown"
      else s

/-- ASCII decimal digit character. -/
def digitChar10 (d : Nat) : Char := Char.ofNat (48 + d)

/-- Decimal digits of `n`, most significant first (fuel-driven; any fuel
at least `n` suffices for `n ≥ 1`). -/
def natDecDigits : Nat → Nat → List Char
  | 0, _ => []
  | fuel + 1, n =>
    if n < 10 then [digitChar10 n]
    else natDecDigits fuel (n / 10) ++ [digitChar10 (n % 10)]

/-- Decimal rendering of a positive integer, as Python's f-string produces
for the collision counter. -/
def pyIntStr (n : Nat) : String := String.mk (natDecDigits n n)

/-- Value of a decimal digit string (for proving `pyIntStr` injective). -/
def digitsListVal (cs : List Char) : Nat := cs.foldl (fun a c => 10 * a + (c.toNat - 48)) 0

/-- The candidate header names tried by the collision loop of
`_resolve_headers` (io.py lines 237-243): the base label itself, then
`base_1`, `base_2`, …. -/
def headerCandidate (base : String) (k : Nat) : String :=
  if k = 0 then base else base ++ "_" ++ pyIntStr k

/-- The `while new_header in headers` loop, fuel-driven (the fuel
`headers.length + 2` always suffices: among `headers.length + 2` distinct
candidates one is free). -/
def freshHeaderAux (base : String) (headers : List String) : Nat → Nat → String
  | 0, k => headerCandidate base k
  | fuel + 1, k =>
    if headerCandidate base k ∈ headers then freshHeaderAux base headers fuel (k + 1)
    else headerCandidate base k

/-- The unique header name chosen for `base` against `headers`. -/
def freshHeader (base : String) (headers : List String) : String :=
  freshHeaderAux base headers (headers.length + 2) 0

/-- The `current_disease` carry-forward of io.py lines 208-210: a truthy
cleaned disease cell replaces the current disease, otherwise it is kept. -/
def carryDisease (cur : String) (cell : Option String) : String :=
  if truthy (cleanCellText cell) then (cleanCellText cell).getD "" else cur

/-- State of the header-resolution loop. -/
structure HeaderState where
  current : String
  headers : List String

/-- One iteration of the loop of `_resolve_headers` (io.py lines 204-243). -/
def resolveHeadersStep (st : HeaderState) (p : Option String × Option String) : HeaderState :=
  let current := carryDisease st.current p.1
  let cat := categoryOf (cleanCellText p.2)
  let fresh := freshHeader (current ++ "||" ++ cat) st.headers
  ⟨current, st.headers ++ [fresh]⟩

/-- `_resolve_headers` (io.py lines 182-245): iterate over columns 1 … ,
seeded with header list `["prefecture"]` and current disease `"Unknown"`.
The loop reads `row2[i]`/`row3[i]` for `i < len(cols)`; at the call site
(io.py line 300) the three lists have the sheet's common column count, which
the zip/take below mirrors. -/
def _resolve_headers (cols row2 row3 : List (Option String)) : List String :=
  ((((row2.zip row3).drop 1).take (cols.length - 1)).foldl resolveHeadersStep
    ⟨"Unknown", ["prefecture"]⟩).headers

/-- The disease in effect after a list of columns. -/
def foldDisease (c : String) (ps : List (Option String × Option String)) : String :=
  ps.foldl (fun cur p => carryDisease cur p.1) c

/-- A cleaned disease cell as an optional value: `some` exactly when truthy. -/
def cleanTruthyVal (cell : Option String) : Option String :=
  match cleanCellText cell with
  | some s => if s = "" then none else some s
  | none => none

/-- The claim's reading of carry-forward: the cleaned value of the nearest
truthy disease cell at or to the left, `"Unknown"` when there is none. -/
def nearestDisease (cells : List (Option String)) : String :=
  (((cells.map cleanTruthyVal).reverse).findSome? id).getD "Unknown"

/-- Nonnegativity of a decimal value is nonnegativity of its numerator. -/
theorem DecVal.toRat_nonneg_iff (d : DecVal) : 0 ≤ d.toRat ↔ 0 ≤ d.num := by
  have hpow : (0 : ℚ) < (10 : ℚ) ^ d.shift := by positivity
  unfold DecVal.toRat
  rw [div_nonneg_iff]
  constructor
  · rintro (⟨h, _⟩ | ⟨_, hle⟩)
    · exact_mod_cast h
    · exact absurd hpow (not_lt.mpr hle)
  · intro h
    exact Or.inl ⟨by exact_mod_cast h, le_of_lt hpow⟩

/-- C3 counterexample: the claim asserts every output count value of the
confirmed/bullet coercion is non-negative, but the coercion of the (numeric)
cell `"-5"` yields `-5`, which is negative; nothing in the pipeline clamps
negative numerals. -/
theorem C3_count_coercion_counterexample :
    confirmedCountCoerce (some "-5") = some (-5) ∧ ¬ (0 ≤ (-5 : Int)) := by
  constructor
  · decide
  · decide

/-- C3 amended: in the confirmed-case parser and the bullet parser, a count
cell that is null, `""`, `"-"`, or otherwise non-numeric coerces to 0, and the
output count is always non-null; it is moreover non-negative whenever the
cell's parsed numeric value is non-negative (but the pipeline itself does not
forbid negative numerals, so unconditional non-negativity fails). -/
theorem C3_count_coercion_amended (cell : Option String) :
    (confirmedCountCoerce cell).isSome = true ∧
    confirmedCountCoerce (some "") = some 0 ∧
    confirmedCountCoerce (some "-") = some 0 ∧
    (cell = none → confirmedCountCoerce cell = some 0) ∧
    (∀ s, cell = some s → parseDec s.data = none → confirmedCountCoerce cell = some 0) ∧
    (∀ s d, cell = some s → parseDec s.data = some d → 0 ≤ d.toRat →
      confirmedCountCoerce cell = some (decTruncToInt d) ∧ 0 ≤ decTruncToInt d) := by
  refine ⟨?_, by decide, by decide, ?_, ?_, ?_⟩
  · cases cell <;> rfl
  · rintro rfl; rfl
  · rintro s rfl hp
    simp [confirmedCountCoerce, plCastFloat, plFillNullZero, plCastInt, hp, decTruncToInt]
  · rintro s d rfl hp hq
    refine ⟨by simp [confirmedCountCoerce, plCastFloat, plFillNullZero, plCastInt, hp], ?_⟩
    have hnum : 0 ≤ d.num := (DecVal.toRat_nonneg_iff d).mp hq
    have hden : (0 : Int) ≤ (10 : Int) ^ d.shift := by positivity
    exact Int.tdiv_nonneg hnum hden

/-- C3 witness: the amended theorem applied at the concrete cells `"abc"`
(non-numeric garbage → 0) and `"12"` (a non-negative numeral → non-negative). -/
theorem C3_count_coercion_witness :
    confirmedCountCoerce (some "abc") = some 0 ∧
    confirmedCountCoerce (some "12") = some 12 ∧ 0 ≤ (12 : Int) := by
  have h1 := (C3_count_coercion_amended (some "abc")).2.2.2.2.1 "abc" rfl (by decide)
  have h2 := (C3_count_coercion_amended (some "12")).2.2.2.2.2 "12" ⟨12, 0⟩ rfl (by decide)
    (by rw [DecVal.toRat_nonneg_iff]; decide)
  have h12 : decTruncToInt ⟨12, 0⟩ = 12 := by decide
  exact ⟨h1, by rw [h2.1, h12], by decide⟩

/-- C4 counterexample: the claim asserts the sentinel parsers leave a
`"-"`/empty/unparseable count cell null, but the legacy Japanese sentinel
parser's count pipeline (`.fill_null(0).cast(pl.Int64)`, io.py lines 764-771)
coerces the `"-"` cell to the non-null value 0. -/
theorem C4_sentinel_null_counterexample :
    legacySentinelCount (some "-") = some 0 ∧ legacySentinelCount (some "") = some 0 := by
  constructor <;> decide

/-- C4 amended: null preservation for the `count` field holds only in the
English `/rapid/` sentinel parser, whose `_to_float` maps null, `""`, `"-"`
and unparseable text (after stripping and comma removal) to null; the legacy
Japanese sentinel parser instead coerces such count cells to 0, preserving
null only for `per_sentinel`. -/
theorem C4_sentinel_null_amended (s : String) :
    sentinelEnToFloat none = none ∧
    sentinelEnToFloat (some "") = none ∧
    sentinelEnToFloat (some "-") = none ∧
    (parseDec ((pyStrip s.data).filter (fun c => c != ',')) = none →
      sentinelEnToFloat (some s) = none) ∧
    legacySentinelCount none = some 0 ∧
    (parseDec (replaceFirstDash s.data) = none → legacySentinelCount (some s) = some 0) ∧
    (parseDec (replaceFirstDash s.data) = none → legacySentinelPer (some s) = none) := by
  refine ⟨rfl, by decide, by decide, ?_, rfl, ?_, ?_⟩
  · intro hp
    show (if (pyStrip s.data).filter (fun c => c != ',') = [] ∨
             (pyStrip s.data).filter (fun c => c != ',') = ['-'] then none
          else parseDec ((pyStrip s.data).filter (fun c => c != ','))) = none
    split
    · rfl
    · exact hp
  · intro hp
    simp [legacySentinelCount, plCastFloat, plFillNullZero, plCastInt, hp, decTruncToInt]
  · intro hp
    simp [legacySentinelPer, plCastFloat, hp]

/-- C4 witness: the amended theorem applied at the concrete unparseable cell
`"abc"`: the English parser keeps it null, the legacy parser coerces the count
to 0 while leaving `per_sentinel` null. -/
theorem C4_sentinel_null_witness :
    sentinelEnToFloat (some "abc") = none ∧
    legacySentinelCount (some "abc") = some 0 ∧
    legacySentinelPer (some "abc") = none := by
  have h := C4_sentinel_null_amended "abc"
  exact ⟨h.2.2.2.1 (by decide), h.2.2.2.2.2.1 (by decide), h.2.2.2.2.2.2 (by decide)⟩

/-- C1 counterexample: on a teiten frame containing a null-disease row, the
code's merge drops that row (null propagates through `is_in` and `~`, and
`filter` drops null mask entries), while the claim's reading — keep every
teiten row whose disease value is not in the zensu disease set — would keep
it. -/
theorem C1_smart_merge_counterexample :
    smart_merge [⟨some "A", 0⟩] [⟨none, 1⟩] ≠
      smart_merge_claim [⟨some "A", 0⟩] [⟨none, 1⟩] := by
  decide

/-- C1 amended: every zensu row appears in the merged output; the teiten rows
contributed are exactly those whose disease is non-null and not among the
distinct non-null zensu diseases (a set computed from the zensu input of this
call); and an empty teiten contributes nothing, leaving the output identical
to the zensu rows. -/
theorem C1_smart_merge_amended (zensu teiten : List MergeRow) :
    (∀ r ∈ zensu, r ∈ smart_merge zensu teiten) ∧
    smart_merge zensu teiten =
      zensu ++ teiten.filter (fun r => match r.disease with
        | none => false
        | some d => decide (d ∉ confirmedDiseases zensu)) ∧
    (teiten = [] → smart_merge zensu teiten = zensu) := by
  refine ⟨fun r hr => List.mem_append_left _ hr, ?_, ?_⟩
  · show zensu ++ teiten.filter (fun r =>
        notMask (isInMask r.disease (confirmedDiseases zensu)) == some true) =
      zensu ++ teiten.filter (fun r => match r.disease with
        | none => false
        | some d => decide (d ∉ confirmedDiseases zensu))
    congr 1
    apply List.filter_congr
    intro r _
    cases hd : r.disease with
    | none => rfl
    | some d => simp [isInMask, notMask]
  · rintro rfl
    simp [smart_merge]

/-- C1 witness: the amended theorem at concrete frames — the zensu row is in
the merged output, and merging with an empty teiten returns exactly the zensu
rows. -/
theorem C1_smart_merge_witness :
    (⟨some "A", 0⟩ : MergeRow) ∈ smart_merge [⟨some "A", 0⟩] [⟨none, 1⟩] ∧
    smart_merge [⟨some "A", 0⟩] [] = [⟨some "A", 0⟩] := by
  exact ⟨(C1_smart_merge_amended [⟨some "A", 0⟩] [⟨none, 1⟩]).1 _ (by decide),
         (C1_smart_merge_amended [⟨some "A", 0⟩] []).2.2 rfl⟩

/-- After dedup, the surviving keys are distinct and avoid everything already
seen. -/
theorem uniqueKeepFirstAux_nodup (rows : List UnifiedRow) :
    ∀ seen, ((uniqueKeepFirstAux seen rows).map ukey).Nodup ∧
      (∀ r ∈ uniqueKeepFirstAux seen rows, ukey r ∉ seen) := by
  induction rows with
  | nil => intro seen; simp [uniqueKeepFirstAux]
  | cons r rs ih =>
    intro seen
    by_cases h : ukey r ∈ seen
    · simpa [uniqueKeepFirstAux, h] using ih seen
    · have ih' := ih (ukey r :: seen)
      refine ⟨?_, ?_⟩
      · simp only [uniqueKeepFirstAux, if_neg h, List.map_cons, List.nodup_cons]
        refine ⟨?_, ih'.1⟩
        intro hmem
        rcases List.mem_map.mp hmem with ⟨x, hx, hkx⟩
        exact ih'.2 x hx (hkx ▸ List.mem_cons_self _ _)
      · intro x hx
        simp only [uniqueKeepFirstAux, if_neg h, List.mem_cons] at hx
        rcases hx with rfl | hx
        · exact h
        · exact fun hs => ih'.2 x hx (List.mem_cons_of_mem _ hs)

/-- Dedup is the identity on a list whose keys are already distinct and
disjoint from `seen`. -/
theorem uniqueKeepFirstAux_id (rows : List UnifiedRow) :
    ∀ seen, (rows.map ukey).Nodup → (∀ r ∈ rows, ukey r ∉ seen) →
      uniqueKeepFirstAux seen rows = rows := by
  induction rows with
  | nil => intro seen _ _; rfl
  | cons r rs ih =>
    intro seen hnd hdisj
    simp only [List.map_cons, List.nodup_cons] at hnd
    rw [uniqueKeepFirstAux, if_neg (hdisj r (List.mem_cons_self _ _))]
    congr 1
    refine ih _ hnd.2 ?_
    intro x hx
    simp only [List.mem_cons]
    rintro (hk | hk)
    · exact hnd.1 (hk ▸ List.mem_map_of_mem ukey hx)
    · exact hdisj x (List.mem_cons_of_mem _ hx) hk

/-- C7: the keep-first deduplication on the key
(prefecture, year, week, disease, category) is idempotent — applying it to
its own output removes no rows — and after one application no two rows share
a key. -/
theorem C7_dedup_idempotent (rows : List UnifiedRow) :
    unique_keep_first (unique_keep_first rows) = unique_keep_first rows ∧
    ((unique_keep_first rows).map ukey).Nodup ∧
    (unique_keep_first (unique_keep_first rows)).length = (unique_keep_first rows).length := by
  have hnd := uniqueKeepFirstAux_nodup rows ([])
  have hid : unique_keep_first (unique_keep_first rows) = unique_keep_first rows := by
    unfold unique_keep_first
    exact uniqueKeepFirstAux_id _ ([]) hnd.1 (by intro r _; simp)
  exact ⟨hid, hnd.1, by rw [hid]⟩

/-- Folded minimum of a list is one of the arguments and a lower bound. -/
theorem foldl_min_spec (xs : List Int) (a : Int) :
    (xs.foldl min a = a ∨ xs.foldl min a ∈ xs) ∧ xs.foldl min a ≤ a ∧
      ∀ x ∈ xs, xs.foldl min a ≤ x := by
  induction xs generalizing a with
  | nil => exact ⟨Or.inl rfl, le_refl a, by simp⟩
  | cons y ys ih =>
    have h := ih (min a y)
    refine ⟨?_, ?_, ?_⟩
    · rcases h.1 with he | hm
      · rcases min_choice a y with hc | hc
        · exact Or.inl (by rw [List.foldl_cons, he, hc])
        · exact Or.inr (by rw [List.foldl_cons, he, hc]; exact List.mem_cons_self _ _)
      · exact Or.inr (List.mem_cons_of_mem _ hm)
    · exact le_trans h.2.1 (min_le_left a y)
    · intro x hx
      rcases List.mem_cons.mp hx with rfl | hx
      · exact le_trans h.2.1 (min_le_right a x)
      · exact h.2.2 x hx

/-- Folded maximum of a list is one of the arguments and an upper bound. -/
theorem foldl_max_spec (xs : List Int) (a : Int) :
    (xs.foldl max a = a ∨ xs.foldl max a ∈ xs) ∧ a ≤ xs.foldl max a ∧
      ∀ x ∈ xs, x ≤ xs.foldl max a := by
  induction xs generalizing a with
  | nil => exact ⟨Or.inl rfl, le_refl a, by simp⟩
  | cons y ys ih =>
    have h := ih (max a y)
    refine ⟨?_, ?_, ?_⟩
    · rcases h.1 with he | hm
      · rcases max_choice a y with hc | hc
        · exact Or.inl (by rw [List.foldl_cons, he, hc])
        · exact Or.inr (by rw [List.foldl_cons, he, hc]; exact List.mem_cons_self _ _)
      · exact Or.inr (List.mem_cons_of_mem _ hm)
    · exact le_trans (le_max_left a y) h.2.1
    · intro x hx
      rcases List.mem_cons.mp hx with rfl | hx
      · exact le_trans (le_max_right a x) h.2.1
      · exact h.2.2 x hx

/-- On a column with at least one non-null value, min/max exist, and all
values lying in an interval is equivalent to the min/max bounds. -/
theorem seriesMinMax_spec (col : List (Option Int)) (h : col.filterMap id ≠ []) (lo hi : Int) :
    ∃ mn mx, seriesMin col = some mn ∧ seriesMax col = some mx ∧
      ((∀ v ∈ col.filterMap id, lo ≤ v ∧ v ≤ hi) ↔ (lo ≤ mn ∧ mx ≤ hi)) := by
  rcases hv : col.filterMap id with _ | ⟨x, xs⟩
  · exact absurd hv h
  · have hmin := foldl_min_spec xs x
    have hmax := foldl_max_spec xs x
    refine ⟨xs.foldl min x, xs.foldl max x, ?_, ?_, ?_⟩
    · simp [seriesMin, hv]
    · simp [seriesMax, hv]
    · constructor
      · intro hall
        constructor
        · rcases hmin.1 with he | hm
          · rw [he]; exact (hall x (List.mem_cons_self _ _)).1
          · exact (hall _ (List.mem_cons_of_mem _ hm)).1
        · rcases hmax.1 with he | hm
          · rw [he]; exact (hall x (List.mem_cons_self _ _)).2
          · exact (hall _ (List.mem_cons_of_mem _ hm)).2
      · rintro ⟨hlo, hhi⟩ v hv'
        rcases List.mem_cons.mp hv' with rfl | hv'
        · exact ⟨le_trans hlo hmin.2.1, le_trans hmax.2.1 hhi⟩
        · exact ⟨le_trans hlo (hmin.2.2 v hv'), le_trans (hmax.2.2 v hv') hhi⟩

/-- C8 counterexample: a table whose year column is present but has no
non-null cell (here: empty) has every year value vacuously inside
[1999, 2030], yet `validate_date_ranges` does not return cleanly — polars
`min()` gives `None` and the comparison `None < 1999` raises a `TypeError`
rather than returning. -/
theorem C8_range_validation_counterexample :
    validate_date_ranges { year := some [], week := none } = .error .typeError ∧
    (∀ v : Int, some v ∈ ([] : List (Option Int)) → 1999 ≤ v ∧ v ≤ 2030) := by
  exact ⟨rfl, by simp⟩

/-- C8 amended: on tables whose present year/week columns each contain at
least one non-null value, `validate_date_ranges` returns cleanly exactly when
all year values lie in [1999, 2030] and all week values lie in [1, 53];
an out-of-range year raises the error naming the year min/max, and an
out-of-range week (with the year check passing) raises the error naming the
week min/max.  On a present column with no non-null value the claim fails
(see the counterexample). -/
theorem C8_range_validation_amended (t : ValTable)
    (hy : ∀ col, t.year = some col → col.filterMap id ≠ [])
    (hw : ∀ col, t.week = some col → col.filterMap id ≠ []) :
    (validate_date_ranges t = .ok () ↔
      ((∀ col, t.year = some col → ∀ v ∈ col.filterMap id, 1999 ≤ v ∧ v ≤ 2030) ∧
       (∀ col, t.week = some col → ∀ v ∈ col.filterMap id, 1 ≤ v ∧ v ≤ 53))) ∧
    (∀ col mn mx, t.year = some col → seriesMin col = some mn → seriesMax col = some mx →
      (mn < 1999 ∨ 2030 < mx) → validate_date_ranges t = .error (.yearOut mn mx)) ∧
    (∀ col mn mx, t.week = some col → seriesMin col = some mn → seriesMax col = some mx →
      (mn < 1 ∨ 53 < mx) →
      (∀ colY, t.year = some colY → ∀ v ∈ colY.filterMap id, 1999 ≤ v ∧ v ≤ 2030) →
      validate_date_ranges t = .error (.weekOut mn mx)) := by
  have hweek : (validateWeekRange t = .ok () ↔
      (∀ col, t.week = some col → ∀ v ∈ col.filterMap id, 1 ≤ v ∧ v ≤ 53)) := by
    cases hwc : t.week with
    | none =>
      have hval : validateWeekRange t = .ok () := by simp only [validateWeekRange, hwc]
      rw [hval]
      constructor
      · intro _ c hc; cases hc
      · intro _; rfl
    | some col =>
      rcases seriesMinMax_spec col (hw col hwc) 1 53 with ⟨mn, mx, hmn, hmx, hiff⟩
      have hval : validateWeekRange t =
          if mn < 1 ∨ 53 < mx then Except.error (RangeError.weekOut mn mx) else Except.ok () := by
        simp only [validateWeekRange, hwc, hmn, hmx]
      rw [hval]
      by_cases hout : mn < 1 ∨ 53 < mx
      · rw [if_pos hout]
        constructor
        · intro hcontra; exact absurd hcontra (by simp)
        · intro hall
          have := hiff.mp (hall col rfl)
          omega
      · rw [if_neg hout]
        constructor
        · intro _ c hc
          rw [Option.some_inj] at hc
          subst hc
          exact hiff.mpr (by omega)
        · intro _; rfl
  refine ⟨?_, ?_, ?_⟩
  · cases hyc : t.year with
    | none =>
      have hval : validate_date_ranges t = validateWeekRange t := by
        simp only [validate_date_ranges, hyc]
      rw [hval, hweek]
      constructor
      · intro h
        refine ⟨?_, h⟩
        intro c hc; cases hc
      · intro h; exact h.2
    | some col =>
      rcases seriesMinMax_spec col (hy col hyc) 1999 2030 with ⟨mn, mx, hmn, hmx, hiff⟩
      have hval : validate_date_ranges t =
          if mn < 1999 ∨ 2030 < mx then Except.error (RangeError.yearOut mn mx)
          else validateWeekRange t := by
        simp only [validate_date_ranges, hyc, hmn, hmx]
      rw [hval]
      by_cases hout : mn < 1999 ∨ 2030 < mx
      · rw [if_pos hout]
        constructor
        · intro hcontra; exact absurd hcontra (by simp)
        · rintro ⟨hyall, _⟩
          have := hiff.mp (hyall col rfl)
          omega
      · rw [if_neg hout, hweek]
        constructor
        · intro h
          refine ⟨?_, h⟩
          intro c hc
          rw [Option.some_inj] at hc
          subst hc
          exact hiff.mpr (by omega)
        · intro h; exact h.2
  · intro col mn mx hyc hmn hmx hout
    have hval : validate_date_ranges t =
        if mn < 1999 ∨ 2030 < mx then Except.error (RangeError.yearOut mn mx)
        else validateWeekRange t := by
      simp only [validate_date_ranges, hyc, hmn, hmx]
    rw [hval, if_pos hout]
  · intro col mn mx hwc hmn hmx hout hyok
    have hwk : validateWeekRange t = .error (.weekOut mn mx) := by
      have hval : validateWeekRange t =
          if mn < 1 ∨ 53 < mx then Except.error (RangeError.weekOut mn mx) else Except.ok () := by
        simp only [validateWeekRange, hwc, hmn, hmx]
      rw [hval, if_pos hout]
    cases hyc : t.year with
    | none =>
      have hval : validate_date_ranges t = validateWeekRange t := by
        simp only [validate_date_ranges, hyc]
      rw [hval]; exact hwk
    | some colY =>
      rcases seriesMinMax_spec colY (hy colY hyc) 1999 2030 with ⟨mn', mx', hmn', hmx', hiff'⟩
      have hin := hiff'.mp (hyok colY hyc)
      have hval : validate_date_ranges t =
          if mn' < 1999 ∨ 2030 < mx' then Except.error (RangeError.yearOut mn' mx')
          else validateWeekRange t := by
        simp only [validate_date_ranges, hyc, hmn', hmx']
      rw [hval, if_neg (by omega)]
      exact hwk

/-- C8 witness: the amended theorem at concrete tables — week 54 raises the
error naming min/max 54-54, year 1850 raises the error naming 1850-1850, and
an in-range table passes. -/
theorem C8_range_validation_witness :
    validate_date_ranges { year := some [some 2020], week := some [some 54] } =
      .error (.weekOut 54 54) ∧
    validate_date_ranges { year := some [some 1850], week := some [some 5] } =
      .error (.yearOut 1850 1850) ∧
    validate_date_ranges { year := some [some 2020], week := some [some 5] } = .ok () := by
  refine ⟨?_, ?_, ?_⟩
  · exact (C8_range_validation_amended { year := some [some 2020], week := some [some 54] }
      (by intro col h; rw [Option.some_inj] at h; subst h; simp)
      (by intro col h; rw [Option.some_inj] at h; subst h; simp)).2.2
      [some 54] 54 54 rfl rfl rfl (by omega)
      (by intro colY h v hv
          rw [Option.some_inj] at h; subst h
          simp only [List.filterMap_cons, id, List.filterMap_nil, List.mem_cons] at hv
          rcases hv with rfl | hv
          · omega
          · simp at hv)
  · exact (C8_range_validation_amended { year := some [some 1850], week := some [some 5] }
      (by intro col h; rw [Option.some_inj] at h; subst h; simp)
      (by intro col h; rw [Option.some_inj] at h; subst h; simp)).2.1
      [some 1850] 1850 1850 rfl rfl rfl (by omega)
  · exact (C8_range_validation_amended { year := some [some 2020], week := some [some 5] }
      (by intro col h; rw [Option.some_inj] at h; subst h; simp)
      (by intro col h; rw [Option.some_inj] at h; subst h; simp)).1.mpr
      ⟨by intro col h v hv
          rw [Option.some_inj] at h; subst h
          simp only [List.filterMap_cons, id, List.filterMap_nil, List.mem_cons] at hv
          rcases hv with rfl | hv
          · omega
          · simp at hv,
        by intro col h v hv
           rw [Option.some_inj] at h; subst h
           simp only [List.filterMap_cons, id, List.filterMap_nil, List.mem_cons] at hv
           rcases hv with rfl | hv
           · omega
           · simp at hv⟩

/-- C10: `get_confirmed` raises `ValueError` with no directory created and no
download attempted (empty effect trace) exactly on years outside [1999, 2023]
for sex data and outside [2001, 2023] for place data; for in-range years the
bounds check passes — no `ValueError` is possible and the directory creation
is reached. -/
theorem C10_get_confirmed_bounds (year : Int) (kind : ConfirmedKind)
    (destExists overwrite downloadOk : Bool) :
    (kind = .sex → ¬(1999 ≤ year ∧ year ≤ 2023) →
      get_confirmed year kind destExists overwrite downloadOk =
        ([], .error (.valueError "year must be between 1999 and 2023 for sex data"))) ∧
    (kind = .place → ¬(2001 ≤ year ∧ year ≤ 2023) →
      get_confirmed year kind destExists overwrite downloadOk =
        ([], .error (.valueError "year must be between 2001 and 2023 for place data"))) ∧
    ((kind = .sex → 1999 ≤ year ∧ year ≤ 2023) → (kind = .place → 2001 ≤ year ∧ year ≤ 2023) →
      (∀ m, (get_confirmed year kind destExists overwrite downloadOk).2 ≠
        .error (.valueError m)) ∧
      (get_confirmed year kind destExists overwrite downloadOk).1.head? = some .mkdirOutDir) := by
  refine ⟨?_, ?_, ?_⟩
  · rintro rfl hout
    rw [get_confirmed, if_pos ⟨rfl, hout⟩]
  · rintro rfl hout
    rw [get_confirmed, if_neg (by rintro ⟨h, _⟩; cases h), if_pos ⟨rfl, hout⟩]
  · intro hsex hplace
    have h1 : ¬(kind = .sex ∧ ¬(1999 ≤ year ∧ year ≤ 2023)) := by
      rintro ⟨rfl, hout⟩; exact hout (hsex rfl)
    have h2 : ¬(kind = .place ∧ ¬(2001 ≤ year ∧ year ≤ 2023)) := by
      rintro ⟨rfl, hout⟩; exact hout (hplace rfl)
    rw [get_confirmed, if_neg h1, if_neg h2]
    by_cases hde : destExists ∧ ¬(overwrite = true)
    · rw [if_pos hde]
      refine ⟨fun m h => ?_, rfl⟩
      simp at h
    · rw [if_neg hde]
      by_cases hdl : downloadOk
      · rw [if_pos hdl]
        refine ⟨fun m h => ?_, rfl⟩
        simp at h
      · rw [if_neg hdl]
        refine ⟨fun m h => ?_, rfl⟩
        simp at h

/-- C10 witness: the bounds theorem at concrete years — 1998 rejected for sex
data, 2000 rejected for place data, 2023 accepted for sex data with the
directory creation reached. -/
theorem C10_get_confirmed_bounds_witness :
    get_confirmed 1998 .sex true false true =
      ([], .error (.valueError "year must be between 1999 and 2023 for sex data")) ∧
    get_confirmed 2000 .place true false true =
      ([], .error (.valueError "year must be between 2001 and 2023 for place data")) ∧
    (get_confirmed 2023 .sex true false true).1.head? = some .mkdirOutDir := by
  refine ⟨?_, ?_, ?_⟩
  · exact (C10_get_confirmed_bounds 1998 .sex true false true).1 rfl (by omega)
  · exact (C10_get_confirmed_bounds 2000 .place true false true).2.1 rfl (by omega)
  · exact ((C10_get_confirmed_bounds 2023 .sex true false true).2.2
      (fun _ => by omega) (fun h => by cases h)).2

/-- Weekday arithmetic: stepping from the Monday on or before day `k` by `z`
days lands on weekday `z % 7 + 1`. -/
theorem isoWeekdayOf_monday_add (k z : Int) :
    isoWeekdayOf (k - (isoWeekdayOf k - 1) + z) = z % 7 + 1 := by
  unfold isoWeekdayOf
  have hde := Int.ediv_add_emod (k - 1) 7
  have hX : k - ((k - 1) % 7 + 1 - 1) + z - 1 = z + 7 * ((k - 1) / 7) := by omega
  rw [hX, Int.add_mul_emod_self_left]

/-- Every value in the synonym table is a fixed point of the table. -/
theorem diseaseNameMappings_values_fixed :
    ∀ p ∈ diseaseNameMappings, applyDiseaseMapping p.2 = p.2 := by
  intro p hp
  fin_cases hp <;> decide

/-- The synonym-table lookup is idempotent. -/
theorem applyDiseaseMapping_idem (z : String) :
    applyDiseaseMapping (applyDiseaseMapping z) = applyDiseaseMapping z := by
  rcases hfind : diseaseNameMappings.find? (fun p => p.1 == z) with _ | p
  · have hz : applyDiseaseMapping z = z := by
      unfold applyDiseaseMapping
      simp only [hfind]
    rw [hz]
    exact hz
  · have hv : applyDiseaseMapping z = p.2 := by
      unfold applyDiseaseMapping
      simp only [hfind]
    rw [hv]
    exact diseaseNameMappings_values_fixed p (List.mem_of_find?_eq_some hfind)

/-- C9 counterexample: disease-name normalization is not idempotent — when
the remainder captured by the malformed-parenthetical rewrite itself still
contains a `") ("` split, a second application rewrites again:
normalize("a) (b) (c") = "b) (c" but normalize("b) (c") = "c". -/
theorem C9_normalize_idempotence_counterexample :
    normalize_disease_name (normalize_disease_name "a) (b) (c") ≠
      normalize_disease_name "a) (b) (c" ∧
    normalize_disease_name "a) (b) (c" = "b) (c" ∧
    normalize_disease_name "b) (c" = "c" := by
  refine ⟨by decide, by decide, by decide⟩

/-- C9 amended: normalization is idempotent on every input whose normalized
form is not itself matched by the malformed split-parenthetical pattern (the
synonym-table stage is idempotent unconditionally); it can differ when the
captured remainder still contains a `") ("` split, as in the
counterexample. -/
theorem C9_normalize_idempotence_amended (s : String)
    (h : malformedGroup (normalize_disease_name s).data = none) :
    normalize_disease_name (normalize_disease_name s) = normalize_disease_name s := by
  have hstep : ∀ y : String, malformedGroup y.data = none →
      normalize_disease_name y = applyDiseaseMapping y := by
    intro y hy
    unfold normalize_disease_name
    simp only [hy]
  rw [hstep _ h]
  show applyDiseaseMapping
      (applyDiseaseMapping
        (match malformedGroup s.data with
         | some g => String.mk (pyStrip g)
         | none => s)) =
    normalize_disease_name s
  rw [applyDiseaseMapping_idem]
  rfl

/-- C9 witness: the amended theorem at the repository's own example input
`"H5N1) (Avian influenza H5N1"`, whose normalized form
`"Avian influenza H5N1"` no longer matches the pattern. -/
theorem C9_normalize_idempotence_witness :
    normalize_disease_name (normalize_disease_name "H5N1) (Avian influenza H5N1") =
      normalize_disease_name "H5N1) (Avian influenza H5N1" ∧
    normalize_disease_name "H5N1) (Avian influenza H5N1" = "Avian influenza H5N1" := by
  exact ⟨C9_normalize_idempotence_amended "H5N1) (Avian influenza H5N1" (by decide),
         by decide⟩

/-- C2 counterexample: the legacy Japanese sentinel parser derives each row's
date via `fromisocalendar(year, week, 7)` — the SUNDAY of the ISO week — not
the Monday the claim asserts: for 2024 week 1 it gives a date 6 days after
the week's Monday. -/
theorem C2_sentinel_monday_counterexample :
    (legacySentinelFinalize [⟨"Hokkaido", "Influenza", some "5", none⟩] 2024 1).map
        (fun r => r.date) = [some (fromISODate 2024 1 7)] ∧
    fromISODate 2024 1 7 ≠ fromISODate 2024 1 1 ∧
    isoWeekdayOf (fromISODate 2024 1 7) = 7 := by
  refine ⟨by decide, by decide, by decide⟩

/-- C2 amended: every record of the English `/rapid/` sentinel parser carries
the ISO week's MONDAY (its `_iso_week_date` equals the ISO-calendar date with
weekday 1, whose ISO weekday is 1); the legacy Japanese sentinel parser
instead stamps every row with `fromisocalendar(year, week, 7)`, the SUNDAY of
the same ISO week — Monday + 6. -/
theorem C2_sentinel_monday_amended (diseaseCols : List (String × Nat × Option Nat))
    (dataRows : List (List String)) (rows : List LegacyLongRow) (y w : Int) :
    (∀ r ∈ enSentinelRecords diseaseCols dataRows y w, r.date = enIsoWeekDate y w) ∧
    enIsoWeekDate y w = fromISODate y w 1 ∧
    isoWeekdayOf (enIsoWeekDate y w) = 1 ∧
    (∀ r ∈ legacySentinelFinalize rows y w, r.date = legacyIsoWeekDate y w) ∧
    (∀ dte, legacyIsoWeekDate y w = some dte →
      dte = fromISODate y w 1 + 6 ∧ isoWeekdayOf dte = 7) := by
  refine ⟨?_, ?_, ?_, ?_, ?_⟩
  · intro r hr
    induction dataRows with
    | nil => cases hr
    | cons row rest ih =>
      unfold enSentinelRecords at hr
      rw [List.foldr_cons] at hr
      by_cases hskip : pyStrip ((row.headD "").data) = [] ∨
          listStartsWith "total".data (pyLowerAscii (pyStrip ((row.headD "").data)))
      · rw [if_pos hskip] at hr
        exact ih hr
      · rw [if_neg hskip] at hr
        rcases List.mem_append.mp hr with hmem | hmem
        · rcases List.mem_map.mp hmem with ⟨dc, _, hdc⟩
          rw [← hdc]
        · exact ih hmem
  · unfold enIsoWeekDate fromISODate isoWeek1Monday
    ring
  · unfold enIsoWeekDate
    rw [isoWeekdayOf_monday_add]
    omega
  · intro r hr
    rcases List.mem_map.mp hr with ⟨x, _, hx⟩
    rw [← hx]
  · intro dte hdte
    unfold legacyIsoWeekDate pyFromisocalendar at hdte
    split at hdte
    · rw [Option.some_inj] at hdte
      subst hdte
      constructor
      · unfold fromISODate; ring
      · have hshape : fromISODate y w 7 =
            rataDie y 1 4 - (isoWeekdayOf (rataDie y 1 4) - 1) + (7 * (w - 1) + 6) := by
          unfold fromISODate isoWeek1Monday; ring
        rw [hshape, isoWeekdayOf_monday_add]
        omega
    · cases hdte

/-- C2 witness: the amended theorem at the concrete input (2024, week 1),
with the legacy date hypothesis discharged by evaluation. -/
theorem C2_sentinel_monday_witness :
    enIsoWeekDate 2024 1 = fromISODate 2024 1 1 ∧
    isoWeekdayOf (enIsoWeekDate 2024 1) = 1 ∧
    fromISODate 2024 1 7 = fromISODate 2024 1 1 + 6 ∧
    isoWeekdayOf (fromISODate 2024 1 7) = 7 ∧
    (∃ r ∈ legacySentinelFinalize [⟨"Hokkaido", "Influenza", some "5", none⟩] 2024 1,
      r.date = legacyIsoWeekDate 2024 1) := by
  have h := C2_sentinel_monday_amended [] [] [⟨"Hokkaido", "Influenza", some "5", none⟩] 2024 1
  have hsun := h.2.2.2.2 (fromISODate 2024 1 7) (by decide)
  refine ⟨h.2.1, h.2.2.1, hsun.1, hsun.2, ?_⟩
  refine ⟨(legacySentinelFinalize [⟨"Hokkaido", "Influenza", some "5", none⟩] 2024 1).head
      (by decide), List.head_mem _, ?_⟩
  exact h.2.2.2.1 _ (List.head_mem _)

/-- Digit characters decode back to their value. -/
theorem digitChar10_toNat (d : Nat) (h : d < 10) : (digitChar10 d).toNat = 48 + d := by
  interval_cases d <;> decide

/-- Appending a digit multiplies the value by ten and adds the digit. -/
theorem digitsListVal_append_singleton (cs : List Char) (c : Char) :
    digitsListVal (cs ++ [c]) = 10 * digitsListVal cs + (c.toNat - 48) := by
  simp [digitsListVal, List.foldl_append]

/-- The decimal digits of `n ≥ 1` (with sufficient fuel) are non-empty and
decode back to `n`. -/
theorem natDecDigits_spec (n : Nat) : ∀ fuel, 1 ≤ n → n ≤ fuel →
    digitsListVal (natDecDigits fuel n) = n ∧ natDecDigits fuel n ≠ [] := by
  induction n using Nat.strong_induction_on with
  | _ n ih =>
    intro fuel h1 hfuel
    cases fuel with
    | zero => omega
    | succ fuel =>
      by_cases hlt : n < 10
      · rw [natDecDigits, if_pos hlt]
        refine ⟨?_, by simp⟩
        simp only [digitsListVal, List.foldl_cons, List.foldl_nil]
        rw [digitChar10_toNat n hlt]
        omega
      · rw [natDecDigits, if_neg hlt]
        have hdivlt : n / 10 < n := Nat.div_lt_self (by omega) (by omega)
        have hdiv1 : 1 ≤ n / 10 := by
          have := Nat.div_le_div_right (c := 10) (by omega : 10 ≤ n)
          simpa using this
        have ih' := ih (n / 10) hdivlt (fuel) hdiv1 (by omega)
        refine ⟨?_, by simp⟩
        rw [digitsListVal_append_singleton, ih'.1, digitChar10_toNat (n % 10) (by omega)]
        omega

/-- `pyIntStr` is injective on positive integers. -/
theorem pyIntStr_inj {m n : Nat} (hm : 1 ≤ m) (hn : 1 ≤ n) (h : pyIntStr m = pyIntStr n) :
    m = n := by
  have hd : natDecDigits m m = natDecDigits n n := by
    have := congrArg String.data h
    simpa [pyIntStr] using this
  have h1 := (natDecDigits_spec m m hm le_rfl).1
  have h2 := (natDecDigits_spec n n hn le_rfl).1
  rw [← h1, ← h2, hd]

/-- `pyIntStr` of a positive integer is non-empty. -/
theorem pyIntStr_length_pos {n : Nat} (hn : 1 ≤ n) : 1 ≤ (pyIntStr n).length := by
  have h := (natDecDigits_spec n n hn le_rfl).2
  have : (pyIntStr n).length = (natDecDigits n n).length := rfl
  rw [this]
  cases hne : natDecDigits n n with
  | nil => exact absurd hne h
  | cons a l => simp

/-- The candidate header names for a fixed base are pairwise distinct. -/
theorem headerCandidate_inj (base : String) {i j : Nat}
    (h : headerCandidate base i = headerCandidate base j) : i = j := by
  match i, j with
  | 0, 0 => rfl
  | 0, j + 1 =>
    exfalso
    have hlen := congrArg String.length h
    rw [headerCandidate, headerCandidate, if_pos rfl, if_neg (by omega)] at hlen
    rw [String.length_append, String.length_append] at hlen
    have := pyIntStr_length_pos (n := j + 1) (by omega)
    have h1 : ("_" : String).length = 1 := rfl
    omega
  | i + 1, 0 =>
    exfalso
    have hlen := congrArg String.length h
    rw [headerCandidate, headerCandidate, if_pos rfl, if_neg (by omega)] at hlen
    rw [String.length_append, String.length_append] at hlen
    have := pyIntStr_length_pos (n := i + 1) (by omega)
    have h1 : ("_" : String).length = 1 := rfl
    omega
  | i + 1, j + 1 =>
    rw [headerCandidate, headerCandidate, if_neg (by omega), if_neg (by omega)] at h
    have hdata := congrArg String.data h
    rw [String.data_append, String.data_append, String.data_append, String.data_append]
      at hdata
    rw [List.append_assoc, List.append_assoc] at hdata
    have htail := List.append_cancel_left hdata
    have htail2 := List.append_cancel_left htail
    have : pyIntStr (i + 1) = pyIntStr (j + 1) := by
      have h1 : pyIntStr (i + 1) = String.mk (pyIntStr (i + 1)).data := rfl
      have h2 : pyIntStr (j + 1) = String.mk (pyIntStr (j + 1)).data := rfl
      rw [h1, h2, htail2]
    exact pyIntStr_inj (by omega) (by omega) this

/-- Among the first `headers.length + 2` candidates one is not in `headers`
(pigeonhole over the distinct candidates). -/
theorem exists_fresh_candidate (base : String) (headers : List String) :
    ∃ j, j < headers.length + 2 ∧ headerCandidate base j ∉ headers := by
  by_contra hcon
  push_neg at hcon
  have hinj : Set.InjOn (headerCandidate base) ↑(Finset.range (headers.length + 2)) :=
    fun i _ j _ h => headerCandidate_inj base h
  have hcard : ((Finset.range (headers.length + 2)).image (headerCandidate base)).card =
      headers.length + 2 := by
    rw [Finset.card_image_of_injOn hinj, Finset.card_range]
  have hsub : (Finset.range (headers.length + 2)).image (headerCandidate base) ⊆
      headers.toFinset := by
    intro x hx
    rcases Finset.mem_image.mp hx with ⟨j, hj, rfl⟩
    exact List.mem_toFinset.mpr (hcon j (Finset.mem_range.mp hj))
  have hle := Finset.card_le_card hsub
  have htf := List.toFinset_card_le headers
  omega

/-- The collision loop always returns one of the candidates. -/
theorem freshHeaderAux_shape (base : String) (headers : List String) :
    ∀ fuel k, ∃ j, freshHeaderAux base headers fuel k = headerCandidate base (k + j) := by
  intro fuel
  induction fuel with
  | zero => intro k; exact ⟨0, by simp [freshHeaderAux]⟩
  | succ f ihf =>
    intro k
    by_cases hm : headerCandidate base k ∈ headers
    · rcases ihf (k + 1) with ⟨j, hj⟩
      refine ⟨j + 1, ?_⟩
      rw [freshHeaderAux, if_pos hm, hj]
      congr 1
      omega
    · exact ⟨0, by rw [freshHeaderAux, if_neg hm]; simp⟩

/-- With a free candidate within the fuel window, the loop's result is not in
`headers`. -/
theorem freshHeaderAux_not_mem (base : String) (headers : List String) :
    ∀ fuel k, (∃ j, j ≤ fuel ∧ headerCandidate base (k + j) ∉ headers) →
      freshHeaderAux base headers fuel k ∉ headers := by
  intro fuel
  induction fuel with
  | zero =>
    rintro k ⟨j, hj, hnot⟩
    have hj0 : j = 0 := by omega
    subst hj0
    simpa [freshHeaderAux] using hnot
  | succ f ihf =>
    rintro k ⟨j, hj, hnot⟩
    by_cases hm : headerCandidate base k ∈ headers
    · rw [freshHeaderAux, if_pos hm]
      have hj0 : j ≠ 0 := by
        rintro rfl
        exact hnot (by simpa using hm)
      refine ihf (k + 1) ⟨j - 1, by omega, ?_⟩
      have : k + 1 + (j - 1) = k + j := by omega
      rw [this]
      exact hnot
    · rw [freshHeaderAux, if_neg hm]
      exact hm

/-- The chosen header is fresh and extends the base label. -/
theorem freshHeader_spec (base : String) (headers : List String) :
    freshHeader base headers ∉ headers ∧ ∃ t, freshHeader base headers = base ++ t := by
  constructor
  · rcases exists_fresh_candidate base headers with ⟨j, hj, hnot⟩
    refine freshHeaderAux_not_mem base headers (headers.length + 2) 0 ⟨j, by omega, ?_⟩
    simpa using hnot
  · rcases freshHeaderAux_shape base headers (headers.length + 2) 0 with ⟨j, hj⟩
    simp only [Nat.zero_add] at hj
    rw [freshHeader, hj]
    match j with
    | 0 => exact ⟨"", (String.append_empty base).symm⟩
    | j + 1 =>
      refine ⟨"_" ++ pyIntStr (j + 1), ?_⟩
      rw [headerCandidate, if_neg (by omega), String.append_assoc]

/-- The resolution loop only appends to the header list. -/
theorem resolveFold_shape (ps : List (Option String × Option String)) :
    ∀ st : HeaderState, ∃ tail,
      (ps.foldl resolveHeadersStep st).headers = st.headers ++ tail := by
  induction ps with
  | nil => intro st; exact ⟨[], by simp⟩
  | cons p ps' ih =>
    intro st
    rcases ih (resolveHeadersStep st p) with ⟨tail, htail⟩
    refine ⟨[freshHeader (carryDisease st.current p.1 ++ "||" ++
      categoryOf (cleanCellText p.2)) st.headers] ++ tail, ?_⟩
    rw [List.foldl_cons, htail]
    simp [resolveHeadersStep]

/-- The resolution loop preserves distinctness of the header list. -/
theorem resolveFold_nodup (ps : List (Option String × Option String)) :
    ∀ st : HeaderState, st.headers.Nodup → (ps.foldl resolveHeadersStep st).headers.Nodup := by
  induction ps with
  | nil => intro st h; exact h
  | cons p ps' ih =>
    intro st h
    rw [List.foldl_cons]
    refine ih _ ?_
    show (st.headers ++ [freshHeader (carryDisease st.current p.1 ++ "||" ++
      categoryOf (cleanCellText p.2)) st.headers]).Nodup
    rw [List.nodup_append]
    refine ⟨h, List.nodup_singleton _, ?_⟩
    intro a ha hb
    rcases List.mem_singleton.mp hb with rfl
    exact (freshHeader_spec _ st.headers).1 ha

/-- Each produced label sits at its column's index and decomposes as the
carried disease, the separator, and a category-derived rest. -/
theorem resolveFold_label (ps : List (Option String × Option String)) :
    ∀ (st : HeaderState) (j : Nat), j < ps.length →
      ∃ rest, ((ps.foldl resolveHeadersStep st).headers)[st.headers.length + j]? =
        some (foldDisease st.current (ps.take (j + 1)) ++ "||" ++ rest) := by
  induction ps with
  | nil => intro st j hj; exact absurd hj (by simp)
  | cons p ps' ih =>
    intro st j hj
    rw [List.foldl_cons]
    cases j with
    | zero =>
      rcases resolveFold_shape ps' (resolveHeadersStep st p) with ⟨tail, htail⟩
      have hstep : (resolveHeadersStep st p).headers =
          st.headers ++ [freshHeader (carryDisease st.current p.1 ++ "||" ++
            categoryOf (cleanCellText p.2)) st.headers] := rfl
      rcases (freshHeader_spec (carryDisease st.current p.1 ++ "||" ++
          categoryOf (cleanCellText p.2)) st.headers).2 with ⟨t, ht⟩
      refine ⟨categoryOf (cleanCellText p.2) ++ t, ?_⟩
      rw [htail, hstep, List.append_assoc]
      rw [List.getElem?_append_right (by omega)]
      have hidx : st.headers.length + 0 - st.headers.length = 0 := by omega
      rw [hidx, List.singleton_append, List.getElem?_cons_zero]
      have hfd : foldDisease st.current ((p :: ps').take (0 + 1)) =
          carryDisease st.current p.1 := rfl
      rw [hfd, ht]
      exact congrArg some (String.append_assoc _ _ _)
    | succ j' =>
      have hlen : (resolveHeadersStep st p).headers.length = st.headers.length + 1 := by
        show (st.headers ++ [_]).length = st.headers.length + 1
        simp
      have hj' : j' < ps'.length := by simpa using hj
      rcases ih (resolveHeadersStep st p) j' hj' with ⟨rest, hrest⟩
      refine ⟨rest, ?_⟩
      rw [hlen] at hrest
      have hidx : st.headers.length + (j' + 1) = st.headers.length + 1 + j' := by omega
      rw [hidx, hrest]
      rfl

/-- The carried disease is the value of the nearest truthy cleaned cell. -/
theorem carryDisease_getD (c : String) (cell : Option String) :
    carryDisease c cell = (cleanTruthyVal cell).getD c := by
  unfold carryDisease cleanTruthyVal truthy
  cases h : cleanCellText cell with
  | none => simp [h]
  | some s =>
    by_cases hs : s = ""
    · subst hs; simp [h]
    · simp [h, hs]

/-- Folding the carry equals taking the last truthy cleaned cell. -/
theorem foldDisease_eq_findSome (ps : List (Option String × Option String)) :
    ∀ c, foldDisease c ps =
      (((ps.map (fun p => cleanTruthyVal p.1)).reverse).findSome? id).getD c := by
  induction ps with
  | nil => intro c; rfl
  | cons p ps' ih =>
    intro c
    show foldDisease (carryDisease c p.1) ps' = _
    rw [ih (carryDisease c p.1)]
    rw [List.map_cons, List.reverse_cons, List.findSome?_append]
    cases hA : ((ps'.map (fun p => cleanTruthyVal p.1)).reverse).findSome? id with
    | some s => rfl
    | none =>
      show (carryDisease c p.1 : String) = _
      rw [carryDisease_getD]
      cases hv : cleanTruthyVal p.1 <;> rfl

/-- C5: at a header pair whose category cell cleans to the English word
"Female" (no Japanese-range characters), `_resolve_headers` assigns the
category `male`, because the substring test `"male" in cat_lower` precedes
the `"female"` test and `"male"` is a substring of `"female"` — the
`elif "female"` branch is unreachable.  The claim's label
`"Influenza||female"` is never produced; the code yields
`"Influenza||male"`. -/
theorem C5_female_category_assigned_male :
    _resolve_headers [some "c0", some "c1"] [none, some "Influenza"] [none, some "Female"] =
      ["prefecture", "Influenza||male"] ∧
    cleanCellText (some "Female") = some "Female" ∧
    hasJapaneseChar "Female" = false ∧
    categoryOf (some "Female") = "male" := by
  refine ⟨by decide, by decide, by decide, by decide⟩

/-- C6: `_resolve_headers` is a pure function of its inputs (deterministic);
its first label is `"prefecture"`; its labels are pairwise distinct
(collisions suffixed `_1`, `_2`, … until unique); and every data column's
label decomposes as `disease ++ "||" ++ rest` where the disease is the
cleaned value of the nearest truthy disease-row cell at or to the left of
the column (`"Unknown"` when there is none), carried across runs of blank
disease cells. -/
theorem C6_resolve_headers_deterministic (cols row2 row3 : List (Option String)) :
    _resolve_headers cols row2 row3 = _resolve_headers cols row2 row3 ∧
    (_resolve_headers cols row2 row3).head? = some "prefecture" ∧
    (_resolve_headers cols row2 row3).Nodup ∧
    (∀ j, j < (((row2.zip row3).drop 1).take (cols.length - 1)).length →
      ∃ rest, (_resolve_headers cols row2 row3)[1 + j]? =
        some (nearestDisease (((((row2.zip row3).drop 1).take (cols.length - 1)).take
          (j + 1)).map (fun p => p.1)) ++ "||" ++ rest)) := by
  refine ⟨rfl, ?_, ?_, ?_⟩
  · rcases resolveFold_shape (((row2.zip row3).drop 1).take (cols.length - 1))
      ⟨"Unknown", ["prefecture"]⟩ with ⟨tail, htail⟩
    unfold _resolve_headers
    rw [htail]
    rfl
  · exact resolveFold_nodup _ ⟨"Unknown", ["prefecture"]⟩ (by simp)
  · intro j hj
    rcases resolveFold_label (((row2.zip row3).drop 1).take (cols.length - 1))
      ⟨"Unknown", ["prefecture"]⟩ j hj with ⟨rest, hrest⟩
    refine ⟨rest, ?_⟩
    unfold _resolve_headers
    have hidx : (⟨"Unknown", ["prefecture"]⟩ : HeaderState).headers.length + j = 1 + j := by
      simp
    rw [hidx] at hrest
    rw [hrest]
    congr 2
    rw [foldDisease_eq_findSome]
    unfold nearestDisease
    rw [List.map_map]
    rfl

/-- C6 witness: the theorem at a concrete header pair with a run of two blank
disease cells inside the "Flu" block and a category collision
(Male/Female both map to male, the second suffixed `_1`): the resolver
output is distinct, starts with "prefecture", and column 3 (j = 2) still
carries the disease "Flu" across the blank run. -/
theorem C6_resolve_headers_witness :
    (_resolve_headers [some "a", some "b", some "c", some "d", some "e"]
        [none, some "Flu", none, none, some "Measles"]
        [none, some "Total", some "Male", some "Female", some "Total"]).Nodup ∧
    (∃ rest, (_resolve_headers [some "a", some "b", some "c", some "d", some "e"]
        [none, some "Flu", none, none, some "Measles"]
        [none, some "Total", some "Male", some "Female", some "Total"])[1 + 2]? =
      some (nearestDisease ((((([none, some "Flu", none, none, some "Measles"].zip
          [none, some "Total", some "Male", some "Female", some "Total"]).drop 1).take
          ([some "a", some "b", some "c", some "d", some "e"].length - 1)).take
          (2 + 1)).map (fun p => p.1)) ++ "||" ++ rest)) ∧
    _resolve_headers [some "a", some "b", some "c", some "d", some "e"]
        [none, some "Flu", none, none, some "Measles"]
        [none, some "Total", some "Male", some "Female", some "Total"] =
      ["prefecture", "Flu||total", "Flu||male", "Flu||male_1", "Measles||total"] := by
  refine ⟨(C6_resolve_headers_deterministic _ _ _).2.2.1,
          (C6_resolve_headers_deterministic [some "a", some "b", some "c", some "d", some "e"]
            [none, some "Flu", none, none, some "Measles"]
            [none, some "Total", some "Male", some "Female", some "Total"]).2.2.2 2 (by decide),
          by decide⟩

end JpInfect
